import Mathlib

/-!
Shallow embedding of `src/libutil/args.cc` (namespace `nix`): the
command-line argument parsing and dispatch engine.  Tokens are modelled
as lists of characters, the process-global completion channel
(`completions`, `completionMarker`, `needsCompletion`) as an explicit
`Chan` value threaded through every function, and opaque handler /
completer callbacks as events recorded in a trace.  Fallible code
returns `Except`, carrying the channel state at the point of the throw
(the C++ channel is a global that survives exceptions).
-/

deriving instance DecidableEq for Except

namespace Nix

/-- A command-line token (`std::string` in the source). -/
abbrev Token := List Char

/-- C `isalpha` in the default locale, as used on token characters
in `Args::parseCmdline` (line 52/56). -/
def isAlphaChar (c : Char) : Bool :=
  ('a' ≤ c && c ≤ 'z') || ('A' ≤ c && c ≤ 'Z')

/-- The private marker substring appended to the completion target token
(`completionMarker` at line 21). -/
def completionMarker : Token := "___COMPLETE___".data

/-- Substring search of `needsCompletion` (line 23): the first position
where `m` occurs as a contiguous substring of the token, returning the
text before it (`s.find(completionMarker)` and the prefix up to it). -/
def needsCompletionAux (m : Token) : Token → Option Token
  | [] => if m.isPrefixOf ([] : Token) then some [] else none
  | c :: cs =>
    if m.isPrefixOf (c :: cs) then some []
    else (needsCompletionAux m cs).map (fun p => c :: p)

/-- `needsCompletion` (lines 23-30): `none` when the completion channel
is inactive (`!completions`), otherwise the text before the first
occurrence of the marker, if any. -/
def needsCompletion (completions : Option (List Token)) (s : Token) : Option Token :=
  match completions with
  | none => none
  | some _ => needsCompletionAux completionMarker s

/-- Observable callback invocations: flag handlers (`flag.handler.fun`),
flag completers (`flag.completer`), and positional-argument handlers
(`exp.handler`), which are opaque callables in the source. -/
inductive Event where
  | handlerCalled (flagName : Token) (values : List Token)
  | completerCalled (flagLongName : Token) (index : Nat) (pfx : Token)
  | argHandlerCalled (label : Token) (values : List Token)
deriving DecidableEq, Repr

/-- The `UsageError` messages raised by this translation unit. -/
inductive UsageError where
  | unrecognisedFlag (tok : Token)
  | flagRequiresArgs (flagName : Token) (count : Nat)
  | unexpectedArgument (tok : Token)
  | moreArgumentsRequired
  | notARecognisedCommand (name : Token)
deriving DecidableEq, Repr

/-- One registered flag (`Args::Flag`).  `arity = none` models the
`ArityAny` sentinel; the opaque handler and completer callables are
modelled by identity (events use `longName`) and a presence bit. -/
structure Flag where
  longName : Token
  shortName : Option Char := none
  labels : List Token := []
  arity : Option Nat
  hasCompleter : Bool := false
  category : Nat := 0
deriving DecidableEq, Repr

/-- The process-global completion channel plus the event trace:
`completions` is `none` when completion mode is inactive. -/
structure Chan where
  completions : Option (List Token)
  events : List Event
deriving DecidableEq, Repr

/-- One entry of the positional argument queue (`Args::ExpectedArg`).
Arity `0` is the consume-all sentinel. -/
structure ExpectedArg where
  label : Token
  arity : Nat
  optional : Bool
deriving DecidableEq, Repr

/-- The flag registries of one parsing scope: `longFlags` and
`shortFlags` model the `std::map`s as association lists with unique
keys (lookup is by exact key; `insertAssign` is `operator[]=`), and
`hiddenCategories` the category-visibility set. -/
structure Reg where
  longFlags : List (Token × Flag)
  shortFlags : List (Char × Flag)
  hiddenCategories : List Nat
deriving DecidableEq, Repr

/-- Mutable parse-loop state: the positional argument queue
(`expectedArgs`), the pending positional accumulator (`pendingArgs`),
and the channel. -/
structure LS where
  q : List ExpectedArg
  pending : List Token
  chan : Chan
deriving DecidableEq, Repr

/-- A fatal outcome of `parseCmdline`: a thrown `UsageError` (with the
channel state at the throw) or a failed `assert`. -/
inductive Fatal where
  | usage (e : UsageError) (ch : Chan)
  | assertionFailure
deriving DecidableEq, Repr

/-- `std::set<std::string>::insert`: add if absent (set contents;
membership is the observable). -/
def setInsert (s : List Token) (x : Token) : List Token :=
  if x ∈ s then s else s ++ [x]

/-- `std::map::find` by exact key on an association list. -/
def lookupAssoc {κ ν : Type} [DecidableEq κ] : List (κ × ν) → κ → Option ν
  | [], _ => none
  | (k', v) :: rest, k => if k' = k then some v else lookupAssoc rest k

/-- `std::map::operator[] = v`: overwrite the entry for `k` in place if
present, else append. -/
def insertAssign {κ ν : Type} [DecidableEq κ] : List (κ × ν) → κ → ν → List (κ × ν)
  | [], k, v => [(k, v)]
  | (k', v') :: rest, k, v =>
    if k' = k then (k, v) :: rest else (k', v') :: insertAssign rest k v

/-- The `assert`s of `Args::addFlag` (lines 11-13): a fixed arity must
equal the number of labels, and the long name must be non-empty. -/
def flagOk (fl : Flag) : Bool :=
  (match fl.arity with
   | some k => k == fl.labels.length
   | none => true) && !fl.longName.isEmpty

/-- `Args::addFlag` (lines 8-16): register under the long name
(overwriting any prior entry) and, when a short name is present, under
it too.  `none` models an assertion failure. -/
def addFlag (reg : Reg) (fl : Flag) : Option Reg :=
  if flagOk fl then
    some { reg with
      longFlags := insertAssign reg.longFlags fl.longName fl
      shortFlags :=
        match fl.shortName with
        | some c => insertAssign reg.shortFlags c fl
        | none => reg.shortFlags }
  else none

/-- The compound-expansion guard of `Args::parseCmdline` (line 52):
`arg.length() > 2 && arg[0] == '-' && arg[1] != '-' && isalpha(arg[1])`. -/
def expandQualifies (t : Token) : Bool :=
  match t with
  | c0 :: c1 :: rest =>
    !rest.isEmpty && (c0 == '-') && !(c1 == '-') && isAlphaChar c1
  | _ => false

/-- The insertion loop of compound expansion (lines 55-61): each
alphabetic character becomes its own single-letter flag token; the first
non-alphabetic character plus the rest of the token becomes one trailing
token and stops the expansion. -/
def expandCluster : List Char → List Token
  | [] => []
  | c :: cs => if isAlphaChar c then ['-', c] :: expandCluster cs else [c :: cs]

/-- In-place compound expansion of one token (lines 52-63): a qualifying
token is rewritten to the single-letter flag of its second character
followed by the inserted tokens; any other token is left alone. -/
def expandArg (t : Token) : List Token :=
  match t with
  | c0 :: c1 :: rest =>
    if expandQualifies (c0 :: c1 :: rest) then ['-', c1] :: expandCluster rest
    else [c0 :: c1 :: rest]
  | t => [t]

/-- Appending the completion marker to the token at the given 0-based
index (line 42: `*std::next(cmdline.begin(), n - 1) += completionMarker`). -/
def markToken : List Token → Nat → List Token
  | [], _ => []
  | t :: ts, 0 => (t ++ completionMarker) :: ts
  | t :: ts, k + 1 => t :: markToken ts k

/-- The per-value completion check inside the value-consumption loop of
`Args::processFlag` (lines 130-132): if the value bears the marker and
the flag has a completer, the completer receives the value's index and
the un-marked prefix. -/
def valueStep (fl : Flag) (n : Nat) (t : Token) (ch : Chan) : Chan :=
  match needsCompletion ch.completions t with
  | some p =>
    if fl.hasCompleter then
      { ch with events := ch.events ++ [.completerCalled fl.longName n p] }
    else ch
  | none => ch

/-- The value-consumption loop of `Args::processFlag` (lines 125-134)
for a fixed arity: `k` is the flag's total arity (used in the error
message), the first `Nat` argument the values still to consume, the
second the current value index `n`.  Returns the consumed values, the
remaining tokens, and the channel. -/
def consumeFixed (fl : Flag) (name : Token) (k : Nat) :
    Nat → Nat → List Token → Chan → Except (UsageError × Chan) (List Token × List Token × Chan)
  | 0, _, toks, ch => .ok ([], toks, ch)
  | _ + 1, _, [], ch => .error (.flagRequiresArgs name k, ch)
  | r + 1, n, t :: ts, ch =>
    let ch1 := valueStep fl n t ch
    match consumeFixed fl name k r (n + 1) ts ch1 with
    | .error e => .error e
    | .ok (vs, rest, ch2) => .ok (t :: vs, rest, ch2)

/-- The same loop for the `ArityAny` sentinel: `n < ArityAny` never
fails, so the loop runs until `pos == end`, consuming every remaining
token (the `break` at line 127 fires only at end of input). -/
def consumeAny (fl : Flag) : Nat → List Token → Chan → (List Token × Chan)
  | _, [], ch => ([], ch)
  | n, t :: ts, ch =>
    let ch1 := valueStep fl n t ch
    let (vs, ch2) := consumeAny fl (n + 1) ts ch1
    (t :: vs, ch2)

/-- The `process` lambda of `Args::processFlag` (lines 122-137), after
the initial `++pos`: `toks` are the tokens following the flag token.
Consume the flag's values, then invoke the handler exactly once with
them. -/
def runProcess (fl : Flag) (name : Token) (toks : List Token) (ch : Chan) :
    Except (UsageError × Chan) (List Token × Chan) :=
  match fl.arity with
  | some k =>
    match consumeFixed fl name k k 0 toks ch with
    | .error e => .error e
    | .ok (vs, rest, ch1) =>
      .ok (rest, { ch1 with events := ch1.events ++ [.handlerCalled name vs] })
  | none =>
    let (vs, ch1) := consumeAny fl 0 toks ch
    .ok ([], { ch1 with events := ch1.events ++ [.handlerCalled name vs] })

/-- The long-flag completion seeding loop (lines 141-145): every
registered long flag whose category is not hidden and whose name has the
un-prefixed, un-marked text (`std::string(*prefix, 2)`) as a prefix is
inserted as `--name`. -/
def seedLongFlags (reg : Reg) (cs : List Token) (p : Token) : List Token :=
  reg.longFlags.foldl
    (fun acc nf =>
      if nf.2.category ∉ reg.hiddenCategories ∧ (p.drop 2).isPrefixOf nf.1 then
        setInsert acc (['-', '-'] ++ nf.1)
      else acc)
    cs

/-- Lines 140-146 as one step: when the channel is active and the token
bears the marker, replace the candidate set by the seeded one; otherwise
leave the channel alone. -/
def seedIfCompleting (reg : Reg) (t : Token) (ch : Chan) : Chan :=
  match ch.completions with
  | none => ch
  | some cs =>
    match needsCompletionAux completionMarker t with
    | none => ch
    | some p => { ch with completions := some (seedLongFlags reg cs p) }

/-- The bare-dash discovery seeding (lines 159-165): insert `--` and
every registered short flag. -/
def seedShortAll (reg : Reg) (cs : List Token) : List Token :=
  reg.shortFlags.foldl (fun acc cf => setInsert acc ['-', cf.1]) (setInsert cs ['-', '-'])

/-- `Args::processFlag` (lines 118-168) on the token `t` at the scan
position and the tokens `rest` after it.  Result `false` means "not a
flag" with the position unchanged (`t :: rest` returned for clarity);
`true` means dispatched, with the tokens remaining after the consumed
values. -/
def processFlag (reg : Reg) (t : Token) (rest : List Token) (ch : Chan) :
    Except (UsageError × Chan) (Bool × List Token × Chan) :=
  if t.take 2 = ['-', '-'] then
    let ch1 := seedIfCompleting reg t ch
    match lookupAssoc reg.longFlags (t.drop 2) with
    | none => .ok (false, t :: rest, ch1)
    | some fl =>
      match runProcess fl (['-', '-'] ++ t.drop 2) rest ch1 with
      | .error e => .error e
      | .ok (r, ch2) => .ok (true, r, ch2)
  else
    match t with
    | ['-', c1] =>
      (match lookupAssoc reg.shortFlags c1 with
       | none => .ok (false, t :: rest, ch)
       | some fl =>
         match runProcess fl ['-', c1] rest ch with
         | .error e => .error e
         | .ok (r, ch2) => .ok (true, r, ch2))
    | _ =>
      let ch1 :=
        match needsCompletion ch.completions t with
        | some p =>
          if p = ['-'] then
            { ch with completions := (ch.completions).map (fun cs => seedShortAll reg cs) }
          else ch
        | none => ch
      .ok (false, t :: rest, ch1)

/-- `Args::processArgs` (lines 170-196): try to satisfy the front entry
of the positional argument queue with the accumulated `args`; at
`finish`, a remaining non-optional front entry is a usage error. -/
def processArgs (q : List ExpectedArg) (args : List Token) (finish : Bool) (ch : Chan) :
    Except (UsageError × Chan) (Bool × List ExpectedArg × Chan) :=
  match q with
  | [] =>
    match args with
    | a :: _ => .error (.unexpectedArgument a, ch)
    | [] => .ok (true, [], ch)
  | exp :: qrest =>
    let satisfied : Bool :=
      (exp.arity == 0 && finish) || (decide (exp.arity > 0) && args.length == exp.arity)
    let res := if satisfied then (true, qrest,
        { ch with events := ch.events ++ [.argHandlerCalled exp.label args] })
      else (false, exp :: qrest, ch)
    match res with
    | (r, q', ch') =>
      match q' with
      | [] => .ok (r, q', ch')
      | e2 :: _ =>
        if finish && !e2.optional then .error (.moreArgumentsRequired, ch')
        else .ok (r, q', ch')

/-- The scan loop of `Args::parseCmdline` (lines 46-81), fuel-indexed
(`none` = out of fuel; every terminating run is reached with enough
fuel).  Each iteration: expand a qualifying compound token in place,
then either absorb a first `--`, dispatch a flag, or accumulate one
positional token. -/
def parseLoop (reg : Reg) : Nat → Bool → List Token → LS →
    Option (Except (UsageError × Chan) LS)
  | 0, _, _, _ => none
  | _ + 1, _, [], st =>
    some (match processArgs st.q st.pending true st.chan with
      | .error e => .error e
      | .ok (_, q', ch') => .ok { st with q := q', chan := ch' })
  | fuel + 1, dashDash, t :: rest, st =>
    match (if dashDash = false ∧ expandQualifies t = true
           then expandArg t ++ rest else t :: rest) with
    | [] => none
    | t' :: rest' =>
      if dashDash = false ∧ t' = ['-', '-'] then
        parseLoop reg fuel true rest' st
      else if dashDash = false ∧ t'.take 1 = ['-'] then
        match processFlag reg t' rest' st.chan with
        | .error e => some (.error e)
        | .ok (false, _, ch1) => some (.error (.unrecognisedFlag t', ch1))
        | .ok (true, remaining, ch1) =>
          parseLoop reg fuel dashDash remaining { st with chan := ch1 }
      else
        let pending' := st.pending ++ [t']
        match processArgs st.q pending' false st.chan with
        | .error e => some (.error e)
        | .ok (r, q', ch') =>
          parseLoop reg fuel dashDash rest'
            { q := q', pending := if r then [] else pending', chan := ch' }

/-- The parse loop restricted to its positional-only branch: what the
loop does once `dashDash` is set (no expansion, no flag dispatch). -/
def positionalLoop : Nat → List Token → LS → Option (Except (UsageError × Chan) LS)
  | 0, _, _ => none
  | _ + 1, [], st =>
    some (match processArgs st.q st.pending true st.chan with
      | .error e => .error e
      | .ok (_, q', ch') => .ok { st with q := q', chan := ch' })
  | fuel + 1, t :: rest, st =>
    let pending' := st.pending ++ [t]
    match processArgs st.q pending' false st.chan with
    | .error e => some (.error e)
    | .ok (r, q', ch') =>
      positionalLoop fuel rest { q := q', pending := if r then [] else pending', chan := ch' }

/-- `Args::parseCmdline` (lines 32-81): when the completion environment
signal carries the 1-based index `n`, assert `n > 0 && n <= cmdline.size()`,
append the marker to token `n - 1`, activate the channel, and run the
scan loop; without the signal, run the loop with the channel inactive. -/
def parseCmdline (reg : Reg) (q0 : List ExpectedArg) (compIdx : Option Nat)
    (cmdline : List Token) (fuel : Nat) : Option (Except Fatal LS) :=
  match compIdx with
  | none =>
    match parseLoop reg fuel false cmdline ⟨q0, [], ⟨none, []⟩⟩ with
    | none => none
    | some (.error (e, ch)) => some (.error (.usage e ch))
    | some (.ok st) => some (.ok st)
  | some n =>
    if 0 < n ∧ n ≤ cmdline.length then
      match parseLoop reg fuel false (markToken cmdline (n - 1)) ⟨q0, [], ⟨some [], []⟩⟩ with
      | none => none
      | some (.error (e, ch)) => some (.error (.usage e ch))
      | some (.ok st) => some (.ok st)
    else some (.error .assertionFailure)

/-- State owned by one `MultiCommand` instance during parsing: the
at-most-once selected `(name, instance)` pair (the instance produced by
the factory is modelled by an identifier) and the completion channel
candidate set. -/
structure MCState where
  command : Option (Token × Nat)
  completions : Option (List Token)
deriving DecidableEq, Repr

/-- Outcome of the `MultiCommand` command-name handler: normal return,
a thrown `UsageError` (the channel insertions survive the throw), or the
failed `assert(!command)`. -/
inductive MCResult where
  | ok (st : MCState)
  | usageError (e : UsageError) (st : MCState)
  | assertionFailure
deriving DecidableEq, Repr

/-- The command-name completion loop (lines 306-310): every registered
command name with the un-marked prefix is inserted. -/
def seedCommands (commands : List (Token × Nat)) (cs : List Token) (p : Token) : List Token :=
  commands.foldl (fun acc nc => if p.isPrefixOf nc.1 then setInsert acc nc.1 else acc) cs

/-- The command-name handler installed by the `MultiCommand` constructor
(lines 304-315) on its arity-1 expected argument; `s0` is `ss[0]`. -/
def multiCommandHandler (commands : List (Token × Nat)) (st : MCState) (s0 : Token) :
    MCResult :=
  match st.command with
  | some _ => .assertionFailure
  | none =>
    let st1 :=
      match st.completions, needsCompletionAux completionMarker s0 with
      | some cs, some p => { st with completions := some (seedCommands commands cs p) }
      | _, _ => st
    match lookupAssoc commands s0 with
    | none => .usageError (.notARecognisedCommand s0) st1
    | some inst => .ok { st1 with command := some (s0, inst) }

end Nix

/-! ### Helper lemmas -/

namespace Nix

theorem setInsert_mem (s : List Token) (x y : Token) :
    y ∈ setInsert s x ↔ y ∈ s ∨ y = x := by
  unfold setInsert
  by_cases h : x ∈ s
  · simp only [if_pos h]
    exact ⟨Or.inl, fun hy => hy.elim id (fun hyx => hyx ▸ h)⟩
  · simp [if_neg h]

theorem isAlphaChar_dash : isAlphaChar '-' = false := by decide

theorem ne_dash_of_isAlphaChar {c : Char} (h : isAlphaChar c = true) : c ≠ '-' := by
  intro hc
  subst hc
  simp [isAlphaChar_dash] at h

theorem expandCluster_eq (cs : List Char) :
    expandCluster cs =
      (cs.takeWhile isAlphaChar).map (fun c => ['-', c]) ++
        (if cs.dropWhile isAlphaChar = [] then [] else [cs.dropWhile isAlphaChar]) := by
  induction cs with
  | nil => simp [expandCluster]
  | cons c cs ih =>
    by_cases h : isAlphaChar c
    · simp [expandCluster, h, List.takeWhile_cons, List.dropWhile_cons, ih]
    · simp [expandCluster, h, List.takeWhile_cons, List.dropWhile_cons]

theorem lookupAssoc_insertAssign_self {κ ν : Type} [DecidableEq κ]
    (m : List (κ × ν)) (k : κ) (v : ν) :
    lookupAssoc (insertAssign m k v) k = some v := by
  induction m with
  | nil => simp [insertAssign, lookupAssoc]
  | cons kv m ih =>
    by_cases h : kv.1 = k
    · simp [insertAssign, h, lookupAssoc]
    · simp [insertAssign, h, lookupAssoc, ih]

end Nix

/-! ### Claim theorems -/

namespace Nix

/-- C9: registering the same long name twice does not fail: both `addFlag`
calls succeed (subject only to the per-flag assertions), and afterwards
the long-name registry maps the name to the second flag (last write
wins). -/
theorem C9_addFlag_last_write_wins :
    ∀ (reg : Reg) (f1 f2 : Flag), flagOk f1 = true → flagOk f2 = true →
      f1.longName = f2.longName →
      ((addFlag reg f1).bind (fun r => addFlag r f2)).map
          (fun r => lookupAssoc r.longFlags f1.longName) =
        some (some f2) := by
  intro reg f1 f2 h1 h2 hname
  simp [addFlag, h1, h2]
  rw [hname]
  exact lookupAssoc_insertAssign_self _ _ _

/-- Witness for C9: two distinct flags named `verbose`, the second
registration is the one found. -/
theorem C9_addFlag_last_write_wins_witness :
    ((addFlag ⟨[], [], []⟩ ⟨"verbose".data, none, [], some 0, false, 0⟩).bind
        (fun r => addFlag r ⟨"verbose".data, none, [], some 0, false, 3⟩)).map
        (fun r => lookupAssoc r.longFlags ("verbose".data)) =
      some (some ⟨"verbose".data, none, [], some 0, false, 3⟩) :=
  C9_addFlag_last_write_wins ⟨[], [], []⟩
    ⟨"verbose".data, none, [], some 0, false, 0⟩
    ⟨"verbose".data, none, [], some 0, false, 3⟩
    (by decide) (by decide) rfl

end Nix

namespace Nix

/-- C1: during the scan of the command line, a token examined before the
literal `--` separator that has length greater than 2, starts with a
single dash, and whose second character is alphabetic is expanded in
place: it becomes the single-letter flag of its second character, each
subsequent alphabetic character becomes its own single-letter flag token
in original order, and the first non-alphabetic character plus the rest
of the token becomes one trailing token; tokens not meeting the
conditions are never expanded; `-qlf` expands to `-q -l -f` and `-j3`
to `-j 3`; and the scan loop on a qualifying token behaves exactly as on
its in-place expansion. -/
theorem C1_compound_expansion :
    (∀ (c1 : Char) (rest' : List Char), isAlphaChar c1 = true → rest' ≠ [] →
      expandArg ('-' :: c1 :: rest') =
        ['-', c1] :: ((rest'.takeWhile isAlphaChar).map (fun c => ['-', c]) ++
          (if rest'.dropWhile isAlphaChar = [] then []
           else [rest'.dropWhile isAlphaChar]))) ∧
    (∀ t : Token, expandQualifies t = false → expandArg t = [t]) ∧
    (∀ t : Token, expandQualifies t = true ↔
      ∃ c1 rest', t = '-' :: c1 :: rest' ∧ rest' ≠ [] ∧ isAlphaChar c1 = true) ∧
    expandArg "-qlf".data = ["-q".data, "-l".data, "-f".data] ∧
    expandArg "-j3".data = ["-j".data, "3".data] ∧
    (∀ reg fuel t rest st, expandQualifies t = true →
      parseLoop reg (fuel + 1) false (t :: rest) st =
        parseLoop reg (fuel + 1) false (expandArg t ++ rest) st) := by
  have hqual : ∀ (c1 : Char) (rest' : List Char), isAlphaChar c1 = true → rest' ≠ [] →
      expandQualifies ('-' :: c1 :: rest') = true := by
    intro c1 rest' ha hne
    simp [expandQualifies, ha, List.isEmpty_eq_true, hne, ne_dash_of_isAlphaChar ha]
  refine ⟨?_, ?_, ?_, by decide, by decide, ?_⟩
  · intro c1 rest' ha hne
    rw [expandArg, if_pos (hqual c1 rest' ha hne), expandCluster_eq]
  · intro t hf
    match t with
    | [] => rfl
    | [c] => rfl
    | c0 :: c1 :: rest => rw [expandArg, if_neg (by simp [hf])]
  · intro t
    constructor
    · intro h
      match t with
      | [] => simp [expandQualifies] at h
      | [c] => simp [expandQualifies] at h
      | c0 :: c1 :: rest =>
        simp only [expandQualifies, Bool.and_eq_true, beq_iff_eq, Bool.not_eq_true',
          beq_eq_false_iff_ne, ne_eq, List.isEmpty_eq_false] at h
        obtain ⟨⟨⟨hrest, hc0⟩, _⟩, ha⟩ := h
        exact ⟨c1, rest, by rw [hc0], hrest, ha⟩
    · rintro ⟨c1, rest', rfl, hne, ha⟩
      exact hqual c1 rest' ha hne
  · intro reg fuel t rest st h
    obtain ⟨c1, rest', rfl, hne, ha⟩ :
        ∃ c1 rest', t = '-' :: c1 :: rest' ∧ rest' ≠ [] ∧ isAlphaChar c1 = true := by
      match t with
      | [] => simp [expandQualifies] at h
      | [c] => simp [expandQualifies] at h
      | c0 :: c1 :: rest =>
        simp only [expandQualifies, Bool.and_eq_true, beq_iff_eq, Bool.not_eq_true',
          beq_eq_false_iff_ne, ne_eq, List.isEmpty_eq_false] at h
        obtain ⟨⟨⟨hrest, hc0⟩, _⟩, ha⟩ := h
        exact ⟨c1, rest, by rw [hc0], hrest, ha⟩
    have hexp : expandArg ('-' :: c1 :: rest') = ['-', c1] :: expandCluster rest' := by
      rw [expandArg, if_pos h]
    have hhead : expandQualifies ['-', c1] = false := by simp [expandQualifies]
    simp only [parseLoop, hexp, h, hhead, List.cons_append, and_true, if_true,
      eq_self_iff_true, Bool.false_eq_true, and_false, if_false]

end Nix

namespace Nix

/-- Witness for C1: concrete instances of each universally quantified
conjunct. -/
theorem C1_compound_expansion_witness :
    expandArg ('-' :: 'j' :: ['3']) =
      ['-', 'j'] :: (((['3'] : List Char).takeWhile isAlphaChar).map (fun c => ['-', c]) ++
        (if (['3'] : List Char).dropWhile isAlphaChar = [] then []
         else [(['3'] : List Char).dropWhile isAlphaChar])) ∧
    expandArg "--x".data = ["--x".data] ∧
    (expandQualifies "-ab".data = true ↔
      ∃ c1 rest', "-ab".data = '-' :: c1 :: rest' ∧ rest' ≠ [] ∧ isAlphaChar c1 = true) ∧
    parseLoop ⟨[], [], []⟩ 3 false ("-j3".data :: []) ⟨[], [], ⟨none, []⟩⟩ =
      parseLoop ⟨[], [], []⟩ 3 false (expandArg "-j3".data ++ []) ⟨[], [], ⟨none, []⟩⟩ :=
  ⟨C1_compound_expansion.1 'j' ['3'] (by decide) (by decide),
   C1_compound_expansion.2.1 "--x".data (by decide),
   C1_compound_expansion.2.2.1 "-ab".data,
   C1_compound_expansion.2.2.2.2.2 ⟨[], [], []⟩ 2 "-j3".data [] ⟨[], [], ⟨none, []⟩⟩ (by decide)⟩

end Nix

namespace Nix

theorem valueStep_spec (fl : Flag) (n : Nat) (t : Token) (ch : Chan) :
    ∃ evs, valueStep fl n t ch = ⟨ch.completions, ch.events ++ evs⟩ ∧
      ∀ e ∈ evs, ∃ p, e = Event.completerCalled fl.longName n p := by
  unfold valueStep
  cases h : needsCompletion ch.completions t with
  | none => exact ⟨[], by cases ch; simp, by simp⟩
  | some p =>
    by_cases hc : fl.hasCompleter
    · exact ⟨[Event.completerCalled fl.longName n p], by simp [hc], by simp⟩
    · exact ⟨[], by cases ch; simp [hc], by simp⟩

theorem consumeFixed_ok (fl : Flag) (name : Token) (k : Nat) :
    ∀ (r n : Nat) (toks : List Token) (ch : Chan), r ≤ toks.length →
      ∃ evs ch', consumeFixed fl name k r n toks ch = .ok (toks.take r, toks.drop r, ch') ∧
        ch' = ⟨ch.completions, ch.events ++ evs⟩ ∧
        ∀ e ∈ evs, ∃ i p, e = Event.completerCalled fl.longName i p := by
  intro r
  induction r with
  | zero =>
    intro n toks ch _
    exact ⟨[], ch, by simp [consumeFixed], by cases ch; simp, by simp⟩
  | succ r ih =>
    intro n toks ch h
    cases toks with
    | nil => simp at h
    | cons t ts =>
      obtain ⟨evs1, hv, hevs1⟩ := valueStep_spec fl n t ch
      obtain ⟨evs2, ch2, hrec, hch2, hevs2⟩ :=
        ih (n + 1) ts (valueStep fl n t ch) (by simpa using h)
      refine ⟨evs1 ++ evs2, ch2, ?_, ?_, ?_⟩
      · simp [consumeFixed, hrec]
      · rw [hch2, hv]
        simp
      · intro e he
        rcases List.mem_append.1 he with h1 | h2
        · obtain ⟨p, rfl⟩ := hevs1 e h1
          exact ⟨n, p, rfl⟩
        · exact hevs2 e h2

theorem consumeFixed_err (fl : Flag) (name : Token) (k : Nat) :
    ∀ (r n : Nat) (toks : List Token) (ch : Chan), toks.length < r →
      ∃ evs ch', consumeFixed fl name k r n toks ch =
          .error (.flagRequiresArgs name k, ch') ∧
        ch' = ⟨ch.completions, ch.events ++ evs⟩ ∧
        ∀ e ∈ evs, ∃ i p, e = Event.completerCalled fl.longName i p := by
  intro r
  induction r with
  | zero => intro n toks ch h; simp at h
  | succ r ih =>
    intro n toks ch h
    cases toks with
    | nil =>
      exact ⟨[], ch, by simp [consumeFixed], by cases ch; simp, by simp⟩
    | cons t ts =>
      obtain ⟨evs1, hv, hevs1⟩ := valueStep_spec fl n t ch
      obtain ⟨evs2, ch2, hrec, hch2, hevs2⟩ :=
        ih (n + 1) ts (valueStep fl n t ch) (by simpa using h)
      refine ⟨evs1 ++ evs2, ch2, ?_, ?_, ?_⟩
      · simp [consumeFixed, hrec]
      · rw [hch2, hv]
        simp
      · intro e he
        rcases List.mem_append.1 he with h1 | h2
        · obtain ⟨p, rfl⟩ := hevs1 e h1
          exact ⟨n, p, rfl⟩
        · exact hevs2 e h2

theorem consumeAny_spec (fl : Flag) :
    ∀ (n : Nat) (toks : List Token) (ch : Chan),
      ∃ evs, consumeAny fl n toks ch = (toks, ⟨ch.completions, ch.events ++ evs⟩) ∧
        ∀ e ∈ evs, ∃ i p, e = Event.completerCalled fl.longName i p := by
  intro n toks
  induction toks generalizing n with
  | nil => intro ch; exact ⟨[], by cases ch; simp [consumeAny], by simp⟩
  | cons t ts ih =>
    intro ch
    obtain ⟨evs1, hv, hevs1⟩ := valueStep_spec fl n t ch
    obtain ⟨evs2, hrec, hevs2⟩ := ih (n + 1) (valueStep fl n t ch)
    refine ⟨evs1 ++ evs2, ?_, ?_⟩
    · rw [consumeAny, hrec, hv]
      simp
    · intro e he
      rcases List.mem_append.1 he with h1 | h2
      · obtain ⟨p, rfl⟩ := hevs1 e h1
        exact ⟨n, p, rfl⟩
      · exact hevs2 e h2

end Nix

namespace Nix

/-- C2: a flag matched by the dispatcher (long or short) is handed to the
`process` lambda; with fixed arity `k` and at least `k` tokens following,
the handler is invoked exactly once with exactly those `k` tokens in
original order and the scan position advances past them; with fewer than
`k` tokens, a `UsageError` naming the flag and the count `k` is raised
and the handler is not invoked (no handler event is recorded). -/
theorem C2_fixed_arity_dispatch :
    (∀ (reg : Reg) (t : Token) (rest : List Token) (ch : Chan) (fl : Flag),
      t.take 2 = ['-', '-'] → lookupAssoc reg.longFlags (t.drop 2) = some fl →
      processFlag reg t rest ch =
        match runProcess fl (['-', '-'] ++ t.drop 2) rest (seedIfCompleting reg t ch) with
        | .error e => .error e
        | .ok (r, ch2) => .ok (true, r, ch2)) ∧
    (∀ (reg : Reg) (c1 : Char) (rest : List Token) (ch : Chan) (fl : Flag),
      c1 ≠ '-' → lookupAssoc reg.shortFlags c1 = some fl →
      processFlag reg ['-', c1] rest ch =
        match runProcess fl ['-', c1] rest ch with
        | .error e => .error e
        | .ok (r, ch2) => .ok (true, r, ch2)) ∧
    (∀ (fl : Flag) (name : Token) (toks : List Token) (ch : Chan) (k : Nat),
      fl.arity = some k → k ≤ toks.length →
      ∃ evs ch', runProcess fl name toks ch = .ok (toks.drop k, ch') ∧
        ch'.completions = ch.completions ∧
        ch'.events = ch.events ++ evs ++ [Event.handlerCalled name (toks.take k)] ∧
        ∀ e ∈ evs, ∃ i p, e = Event.completerCalled fl.longName i p) ∧
    (∀ (fl : Flag) (name : Token) (toks : List Token) (ch : Chan) (k : Nat),
      fl.arity = some k → toks.length < k →
      ∃ evs ch', runProcess fl name toks ch = .error (.flagRequiresArgs name k, ch') ∧
        ch'.completions = ch.completions ∧ ch'.events = ch.events ++ evs ∧
        ∀ e ∈ evs, ∃ i p, e = Event.completerCalled fl.longName i p) := by
  refine ⟨?_, ?_, ?_, ?_⟩
  · intro reg t rest ch fl ht hl
    rw [processFlag.eq_def, if_pos ht, hl]
  · intro reg c1 rest ch fl hc hl
    have hne : (['-', c1] : Token).take 2 ≠ (['-', '-'] : Token) := by
      simp [List.take, hc]
    rw [processFlag.eq_def, if_neg hne]
    simp only [hl]
  · intro fl name toks ch k hk h
    obtain ⟨evs, ch1, hcf, hch1, hevs⟩ := consumeFixed_ok fl name k k 0 toks ch h
    refine ⟨evs, ⟨ch.completions, ch.events ++ evs ++ [Event.handlerCalled name (toks.take k)]⟩,
      ?_, rfl, rfl, hevs⟩
    rw [runProcess, hk]
    simp only [hcf, hch1]
  · intro fl name toks ch k hk h
    obtain ⟨evs, ch1, hcf, hch1, hevs⟩ := consumeFixed_err fl name k k 0 toks ch h
    refine ⟨evs, ch1, ?_, by rw [hch1], by rw [hch1], hevs⟩
    rw [runProcess, hk]
    simp only [hcf]

/-- Witness for C2: the long flag `--two` of arity 2 dispatched on
`a b c` consumes `a b` and invokes the handler once with them; on the
short stream `a` alone it raises the usage error naming the flag and
arity 2. -/
theorem C2_fixed_arity_dispatch_witness :
    (processFlag ⟨[("two".data, ⟨"two".data, none, ["x".data, "y".data], some 2, false, 0⟩)], [], []⟩
        "--two".data ["a".data, "b".data, "c".data] ⟨none, []⟩ =
      match runProcess ⟨"two".data, none, ["x".data, "y".data], some 2, false, 0⟩
          (['-', '-'] ++ ("--two".data).drop 2) ["a".data, "b".data, "c".data]
          (seedIfCompleting ⟨[("two".data, ⟨"two".data, none, ["x".data, "y".data], some 2, false, 0⟩)], [], []⟩
            "--two".data ⟨none, []⟩) with
      | .error e => .error e
      | .ok (r, ch2) => .ok (true, r, ch2)) ∧
    (∃ evs ch', runProcess ⟨"two".data, none, ["x".data, "y".data], some 2, false, 0⟩
          "--two".data ["a".data, "b".data, "c".data] ⟨none, []⟩ =
        .ok (["a".data, "b".data, "c".data].drop 2, ch') ∧
      ch'.completions = (⟨none, []⟩ : Chan).completions ∧
      ch'.events = (⟨none, []⟩ : Chan).events ++ evs ++
        [Event.handlerCalled "--two".data (["a".data, "b".data, "c".data].take 2)] ∧
      ∀ e ∈ evs, ∃ i p, e = Event.completerCalled "two".data i p) ∧
    (∃ evs ch', runProcess ⟨"two".data, none, ["x".data, "y".data], some 2, false, 0⟩
          "--two".data ["a".data] ⟨none, []⟩ =
        .error (.flagRequiresArgs "--two".data 2, ch') ∧
      ch'.completions = (⟨none, []⟩ : Chan).completions ∧
      ch'.events = (⟨none, []⟩ : Chan).events ++ evs ∧
      ∀ e ∈ evs, ∃ i p, e = Event.completerCalled "two".data i p) :=
  ⟨C2_fixed_arity_dispatch.1
      ⟨[("two".data, ⟨"two".data, none, ["x".data, "y".data], some 2, false, 0⟩)], [], []⟩
      "--two".data ["a".data, "b".data, "c".data] ⟨none, []⟩
      ⟨"two".data, none, ["x".data, "y".data], some 2, false, 0⟩
      (by decide) rfl,
   C2_fixed_arity_dispatch.2.2.1 ⟨"two".data, none, ["x".data, "y".data], some 2, false, 0⟩
      "--two".data ["a".data, "b".data, "c".data] ⟨none, []⟩ 2 rfl (by decide),
   C2_fixed_arity_dispatch.2.2.2 ⟨"two".data, none, ["x".data, "y".data], some 2, false, 0⟩
      "--two".data ["a".data] ⟨none, []⟩ 2 rfl (by decide)⟩

end Nix

namespace Nix

/-- Counterexample to C3 as stated: with `--files` registered at the
"any" arity sentinel and `--help` a registered arity-0 flag, parsing
`--files --help` consumes the recognized token `--help` as a value of
`--files` (the handler of `--files` receives it; the handler of `--help`
is never invoked), instead of stopping at the recognized boundary. -/
theorem C3_any_arity_counterexample :
    parseCmdline
        ⟨[("files".data, ⟨"files".data, none, [], none, false, 0⟩),
          ("help".data, ⟨"help".data, none, [], some 0, false, 0⟩)], [], []⟩
        [] none ["--files".data, "--help".data] 3 =
      some (.ok ⟨[], [], ⟨none, [.handlerCalled "--files".data ["--help".data]]⟩⟩) ∧
    Event.handlerCalled "--help".data [] ∉
      [Event.handlerCalled "--files".data ["--help".data]] := by
  exact ⟨by decide, by decide⟩

/-- C3 amended: a flag with the "any" arity sentinel consumes every
remaining token of the stream as values (stopping only when the tokens
run out, without error); in every case, including zero tokens remaining,
the handler is invoked exactly once with the collected (possibly empty)
list. -/
theorem C3_any_arity_amended :
    ∀ (fl : Flag) (name : Token) (toks : List Token) (ch : Chan), fl.arity = none →
      ∃ evs, runProcess fl name toks ch =
          .ok ([], ⟨ch.completions, ch.events ++ evs ++ [Event.handlerCalled name toks]⟩) ∧
        ∀ e ∈ evs, ∃ i p, e = Event.completerCalled fl.longName i p := by
  intro fl name toks ch hk
  obtain ⟨evs, hca, hevs⟩ := consumeAny_spec fl 0 toks ch
  refine ⟨evs, ?_, hevs⟩
  rw [runProcess, hk]
  simp only [hca]

/-- Witness for C3 (amended): the "any"-arity flag `--files` on an empty
remainder invokes its handler once with the empty list. -/
theorem C3_any_arity_amended_witness :
    ∃ evs, runProcess ⟨"files".data, none, [], none, false, 0⟩ "--files".data [] ⟨none, []⟩ =
        .ok ([], ⟨(⟨none, []⟩ : Chan).completions,
          (⟨none, []⟩ : Chan).events ++ evs ++ [Event.handlerCalled "--files".data []]⟩) ∧
      ∀ e ∈ evs, ∃ i p, e = Event.completerCalled "files".data i p :=
  C3_any_arity_amended ⟨"files".data, none, [], none, false, 0⟩ "--files".data [] ⟨none, []⟩ rfl

end Nix

namespace Nix

theorem consumeFixed_completer (fl : Flag) (name : Token) (ktot : Nat)
    (hc : fl.hasCompleter = true) :
    ∀ (r n0 j : Nat) (toks : List Token) (ch : Chan) (p : Token),
      j < r → r ≤ toks.length →
      needsCompletion ch.completions (toks.getD j []) = some p →
      ∃ evs ch', consumeFixed fl name ktot r n0 toks ch = .ok (toks.take r, toks.drop r, ch') ∧
        ch' = ⟨ch.completions, ch.events ++ evs⟩ ∧
        Event.completerCalled fl.longName (n0 + j) p ∈ evs ∧
        ∀ e ∈ evs, ∃ i q, e = Event.completerCalled fl.longName i q := by
  intro r
  induction r with
  | zero => intro n0 j toks ch p hj _ _; exact absurd hj (Nat.not_lt_zero j)
  | succ r ih =>
    intro n0 j toks ch p hj hr hm
    cases toks with
    | nil => simp at hr
    | cons t ts =>
      cases j with
      | zero =>
        have hm0 : needsCompletion ch.completions t = some p := by simpa using hm
        have hv : valueStep fl n0 t ch =
            ⟨ch.completions, ch.events ++ [.completerCalled fl.longName n0 p]⟩ := by
          simp [valueStep, hm0, hc]
        obtain ⟨evs2, ch2, hrec, hch2, hevs2⟩ :=
          consumeFixed_ok fl name ktot r (n0 + 1) ts (valueStep fl n0 t ch) (by simpa using hr)
        refine ⟨Event.completerCalled fl.longName n0 p :: evs2, ch2, ?_, ?_, by simp, ?_⟩
        · simp [consumeFixed, hrec]
        · rw [hch2, hv]
          simp
        · intro e he
          rcases List.mem_cons.1 he with rfl | h2
          · exact ⟨n0, p, rfl⟩
          · exact hevs2 e h2
      | succ j' =>
        obtain ⟨evs1, hv, hevs1⟩ := valueStep_spec fl n0 t ch
        have hm' : needsCompletion (valueStep fl n0 t ch).completions (ts.getD j' []) =
            some p := by
          rw [hv]
          simpa using hm
        obtain ⟨evs2, ch2, hrec, hch2, hmem2, hevs2⟩ :=
          ih (n0 + 1) j' ts (valueStep fl n0 t ch) p (by omega) (by simpa using hr) hm'
        refine ⟨evs1 ++ evs2, ch2, ?_, ?_, ?_, ?_⟩
        · simp [consumeFixed, hrec]
        · rw [hch2, hv]
          simp
        · have hidx : n0 + 1 + j' = n0 + (j' + 1) := by omega
          exact List.mem_append.2 (Or.inr (hidx ▸ hmem2))
        · intro e he
          rcases List.mem_append.1 he with h1 | h2
          · obtain ⟨q, rfl⟩ := hevs1 e h1
            exact ⟨n0, q, rfl⟩
          · exact hevs2 e h2

/-- Counterexample to C4 as stated: with `--help` registered, the
completion-target token `--help<MARKER>` seeds the channel but is then
looked up with the marker still attached, so no dispatch happens
(`false` is returned and the handler is not invoked), whereas the claim
says lookup and dispatch proceed with the un-marked text — as the second
conjunct shows they would have succeeded.  The third and fourth
conjuncts refute the value half on the 2-arity completer flag `--hash`
with the marked second value `sha<MARKER>`: the handler receives the
value with the marker still attached, not the un-marked value the claim
says parsing proceeds with. -/
theorem C4_completion_marker_counterexample :
    processFlag ⟨[("help".data, ⟨"help".data, none, [], some 0, false, 0⟩)], [], []⟩
        ("--help".data ++ completionMarker) [] ⟨some [], []⟩ =
      .ok (false, ["--help".data ++ completionMarker], ⟨some ["--help".data], []⟩) ∧
    processFlag ⟨[("help".data, ⟨"help".data, none, [], some 0, false, 0⟩)], [], []⟩
        "--help".data [] ⟨some [], []⟩ =
      .ok (true, [], ⟨some [], [.handlerCalled "--help".data []]⟩) ∧
    runProcess ⟨"hash".data, none, ["a".data, "b".data], some 2, true, 0⟩ "--hash".data
        ["v1".data, "sha".data ++ completionMarker] ⟨some [], []⟩ =
      .ok ([], ⟨some [],
        [.completerCalled "hash".data 1 "sha".data,
         .handlerCalled "--hash".data ["v1".data, "sha".data ++ completionMarker]]⟩) ∧
    runProcess ⟨"hash".data, none, ["a".data, "b".data], some 2, true, 0⟩ "--hash".data
        ["v1".data, "sha".data ++ completionMarker] ⟨some [], []⟩ ≠
      .ok ([], ⟨some [],
        [.completerCalled "hash".data 1 "sha".data,
         .handlerCalled "--hash".data ["v1".data, "sha".data]]⟩) :=
  ⟨by decide, by decide, by decide, by decide⟩

/-- C4 amended: the completion marker is not stripped for parsing.  When
the completion target is a long-flag token, the candidates are seeded
but the registry lookup then uses the token text with the marker still
attached, so the token is reported unmatched whenever that marked text
is not a registered name; when the target is a consumed flag value at
any position `n` of a fixed-arity flag's argument list, the flag's
completer (if present) receives that index `n` and the un-marked
prefix, after which the collected values — the marked one included,
still marked — are supplied to the handler exactly once: invocation is
not skipped. -/
theorem C4_completion_marker_amended :
    (∀ (reg : Reg) (t : Token) (rest : List Token) (ch : Chan),
      t.take 2 = ['-', '-'] → lookupAssoc reg.longFlags (t.drop 2) = none →
      processFlag reg t rest ch = .ok (false, t :: rest, seedIfCompleting reg t ch)) ∧
    (∀ (fl : Flag) (name : Token) (toks : List Token) (ch : Chan) (k n : Nat) (p : Token),
      fl.arity = some k → k ≤ toks.length → fl.hasCompleter = true →
      n < k → needsCompletion ch.completions (toks.getD n []) = some p →
      ∃ evs, runProcess fl name toks ch =
          .ok (toks.drop k, ⟨ch.completions,
            ch.events ++ evs ++ [.handlerCalled name (toks.take k)]⟩) ∧
        Event.completerCalled fl.longName n p ∈ evs ∧
        ∀ e ∈ evs, ∃ i q, e = Event.completerCalled fl.longName i q) := by
  constructor
  · intro reg t rest ch ht hl
    rw [processFlag.eq_def, if_pos ht, hl]
  · intro fl name toks ch k n p hk hkl hc hn hm
    obtain ⟨evs, ch', hcf, hch', hmem, hevs⟩ :=
      consumeFixed_completer fl name k hc k 0 n toks ch p hn hkl hm
    refine ⟨evs, ?_, by simpa using hmem, hevs⟩
    rw [runProcess, hk]
    simp only [hcf, hch']

/-- Witness for C4 (amended): an unregistered marked long token is
returned unmatched with the seeded channel; the marked second value
(index 1) of the 2-arity completer flag `--hash` reaches the completer
with index 1 and the un-marked prefix `sha`, and the handler receives
both consumed values with the marker still attached. -/
theorem C4_completion_marker_amended_witness :
    processFlag ⟨[], [], []⟩ ("--zz".data ++ completionMarker) [] ⟨some [], []⟩ =
      .ok (false, ["--zz".data ++ completionMarker],
        seedIfCompleting ⟨[], [], []⟩ ("--zz".data ++ completionMarker) ⟨some [], []⟩) ∧
    (∃ evs, runProcess ⟨"hash".data, none, ["a".data, "b".data], some 2, true, 0⟩
          "--hash".data ["v1".data, "sha".data ++ completionMarker, "x".data]
          ⟨some [], []⟩ =
        .ok ((["v1".data, "sha".data ++ completionMarker, "x".data] : List Token).drop 2,
          ⟨(⟨some [], []⟩ : Chan).completions,
            (⟨some [], []⟩ : Chan).events ++ evs ++
              [.handlerCalled "--hash".data
                ((["v1".data, "sha".data ++ completionMarker, "x".data] : List Token).take 2)]⟩) ∧
      Event.completerCalled "hash".data 1 "sha".data ∈ evs ∧
      ∀ e ∈ evs, ∃ i q, e = Event.completerCalled "hash".data i q) :=
  ⟨C4_completion_marker_amended.1 ⟨[], [], []⟩ ("--zz".data ++ completionMarker) [] ⟨some [], []⟩
      (by decide) rfl,
   C4_completion_marker_amended.2 ⟨"hash".data, none, ["a".data, "b".data], some 2, true, 0⟩
      "--hash".data ["v1".data, "sha".data ++ completionMarker, "x".data] ⟨some [], []⟩
      2 1 "sha".data rfl (by decide) rfl (by decide) (by decide)⟩

end Nix

namespace Nix

theorem seedLongFlags_mem_aux (short : List (Char × Flag)) (hid : List Nat) (p : Token) :
    ∀ (long : List (Token × Flag)) (cs : List Token) (x : Token),
      x ∈ seedLongFlags ⟨long, short, hid⟩ cs p ↔
        x ∈ cs ∨ ∃ nf ∈ long, nf.2.category ∉ hid ∧
          (p.drop 2).isPrefixOf nf.1 = true ∧ x = ['-', '-'] ++ nf.1 := by
  intro long
  induction long with
  | nil =>
    intro cs x
    have hnil : seedLongFlags ⟨[], short, hid⟩ cs p = cs := rfl
    rw [hnil]
    constructor
    · exact fun hx => Or.inl hx
    · rintro (hx | ⟨nf, hmem, _⟩)
      · exact hx
      · exact absurd hmem (List.not_mem_nil nf)
  | cons nf l ih =>
    intro cs x
    have hstep : seedLongFlags ⟨nf :: l, short, hid⟩ cs p =
        seedLongFlags ⟨l, short, hid⟩
          (if nf.2.category ∉ hid ∧ (p.drop 2).isPrefixOf nf.1 = true
           then setInsert cs (['-', '-'] ++ nf.1) else cs) p := by
      simp [seedLongFlags]
    rw [hstep, ih]
    by_cases h : nf.2.category ∉ hid ∧ (p.drop 2).isPrefixOf nf.1 = true
    · rw [if_pos h, setInsert_mem]
      constructor
      · rintro ((hx | rfl) | hex)
        · exact Or.inl hx
        · exact Or.inr ⟨nf, by simp, h.1, h.2, rfl⟩
        · obtain ⟨nf', hmem, hc⟩ := hex
          exact Or.inr ⟨nf', by simp [hmem], hc⟩
      · rintro (hx | ⟨nf', hmem, hc⟩)
        · exact Or.inl (Or.inl hx)
        · rcases List.mem_cons.1 hmem with rfl | hmem'
          · exact Or.inl (Or.inr hc.2.2)
          · exact Or.inr ⟨nf', hmem', hc⟩
    · rw [if_neg h]
      constructor
      · rintro (hx | ⟨nf', hmem, hc⟩)
        · exact Or.inl hx
        · exact Or.inr ⟨nf', by simp [hmem], hc⟩
      · rintro (hx | ⟨nf', hmem, hc⟩)
        · exact Or.inl hx
        · rcases List.mem_cons.1 hmem with rfl | hmem'
          · exact absurd ⟨hc.1, hc.2.1⟩ h
          · exact Or.inr ⟨nf', hmem', hc⟩

/-- C8: completion on a `--`-prefixed target token inserts into the
channel exactly the visible registered long flags whose name has the
un-prefixed, un-marked text as a prefix, written `--name`, and this
seeding happens even when the marked text matches no registered name
(the token is then merely reported unmatched); concretely, with registry
`{--hash-algo, --help}` plus a hidden `--hack` and target `--h<MARKER>`,
the channel ends containing exactly `--hash-algo` and `--help`. -/
theorem C8_long_flag_completion :
    (∀ (reg : Reg) (cs : List Token) (p x : Token),
      x ∈ seedLongFlags reg cs p ↔
        x ∈ cs ∨ ∃ nf ∈ reg.longFlags, nf.2.category ∉ reg.hiddenCategories ∧
          (p.drop 2).isPrefixOf nf.1 = true ∧ x = ['-', '-'] ++ nf.1) ∧
    (∀ (reg : Reg) (t : Token) (ch : Chan) (cs : List Token) (p : Token),
      ch.completions = some cs → needsCompletionAux completionMarker t = some p →
      seedIfCompleting reg t ch = ⟨some (seedLongFlags reg cs p), ch.events⟩) ∧
    (∀ (reg : Reg) (t : Token) (rest : List Token) (ch : Chan),
      t.take 2 = ['-', '-'] → lookupAssoc reg.longFlags (t.drop 2) = none →
      processFlag reg t rest ch = .ok (false, t :: rest, seedIfCompleting reg t ch)) ∧
    processFlag
        ⟨[("hash-algo".data, ⟨"hash-algo".data, none, ["h".data], some 1, false, 0⟩),
          ("help".data, ⟨"help".data, none, [], some 0, false, 0⟩),
          ("hack".data, ⟨"hack".data, none, [], some 0, false, 7⟩)], [], [7]⟩
        ("--h".data ++ completionMarker) [] ⟨some [], []⟩ =
      .ok (false, ["--h".data ++ completionMarker],
        ⟨some ["--hash-algo".data, "--help".data], []⟩) ∧
    (∀ x : Token, x ∈ ["--hash-algo".data, "--help".data] ↔
      x = "--help".data ∨ x = "--hash-algo".data) := by
  refine ⟨?_, ?_, ?_, by decide, ?_⟩
  · intro reg cs p x
    obtain ⟨long, short, hid⟩ := reg
    exact seedLongFlags_mem_aux short hid p long cs x
  · intro reg t ch cs p hcs hm
    obtain ⟨comps, evs⟩ := ch
    simp only [Chan.mk.injEq] at hcs
    subst hcs
    simp [seedIfCompleting, hm]
  · intro reg t rest ch ht hl
    rw [processFlag.eq_def, if_pos ht, hl]
  · intro x
    constructor
    · intro hx
      rcases List.mem_cons.1 hx with rfl | hx'
      · exact Or.inr rfl
      · exact Or.inl (by simpa using hx')
    · rintro (rfl | rfl) <;> simp

/-- Witness for C8: instances of the quantified conjuncts on the
concrete `{--hash-algo, --help, --hack}` registry and the `--h<MARKER>`
target. -/
theorem C8_long_flag_completion_witness :
    ("--hash-algo".data ∈ seedLongFlags
        ⟨[("hash-algo".data, ⟨"hash-algo".data, none, ["h".data], some 1, false, 0⟩),
          ("help".data, ⟨"help".data, none, [], some 0, false, 0⟩),
          ("hack".data, ⟨"hack".data, none, [], some 0, false, 7⟩)], [], [7]⟩
        [] "--h".data ↔
      "--hash-algo".data ∈ ([] : List Token) ∨
        ∃ nf ∈ [("hash-algo".data, (⟨"hash-algo".data, none, ["h".data], some 1, false, 0⟩ : Flag)),
                ("help".data, ⟨"help".data, none, [], some 0, false, 0⟩),
                ("hack".data, ⟨"hack".data, none, [], some 0, false, 7⟩)],
          nf.2.category ∉ [7] ∧ ("--h".data.drop 2).isPrefixOf nf.1 = true ∧
          "--hash-algo".data = ['-', '-'] ++ nf.1) ∧
    seedIfCompleting ⟨[], [], []⟩ ("--z".data ++ completionMarker) ⟨some [], []⟩ =
      ⟨some (seedLongFlags ⟨[], [], []⟩ [] "--z".data), []⟩ ∧
    processFlag ⟨[], [], []⟩ ("--z".data ++ completionMarker) [] ⟨some [], []⟩ =
      .ok (false, ["--z".data ++ completionMarker],
        seedIfCompleting ⟨[], [], []⟩ ("--z".data ++ completionMarker) ⟨some [], []⟩) :=
  ⟨C8_long_flag_completion.1
      ⟨[("hash-algo".data, ⟨"hash-algo".data, none, ["h".data], some 1, false, 0⟩),
        ("help".data, ⟨"help".data, none, [], some 0, false, 0⟩),
        ("hack".data, ⟨"hack".data, none, [], some 0, false, 7⟩)], [], [7]⟩
      [] "--h".data "--hash-algo".data,
   C8_long_flag_completion.2.1 ⟨[], [], []⟩ ("--z".data ++ completionMarker) ⟨some [], []⟩
      [] "--z".data rfl (by decide),
   C8_long_flag_completion.2.2.1 ⟨[], [], []⟩ ("--z".data ++ completionMarker) [] ⟨some [], []⟩
      (by decide) rfl⟩

end Nix

namespace Nix

theorem seedCommands_mem (p : Token) :
    ∀ (commands : List (Token × Nat)) (cs : List Token) (x : Token),
      x ∈ seedCommands commands cs p ↔
        x ∈ cs ∨ ∃ nc ∈ commands, p.isPrefixOf nc.1 = true ∧ x = nc.1 := by
  intro commands
  induction commands with
  | nil =>
    intro cs x
    have hnil : seedCommands [] cs p = cs := rfl
    rw [hnil]
    constructor
    · exact fun hx => Or.inl hx
    · rintro (hx | ⟨nc, hmem, _⟩)
      · exact hx
      · exact absurd hmem (List.not_mem_nil nc)
  | cons nc l ih =>
    intro cs x
    have hstep : seedCommands (nc :: l) cs p =
        seedCommands l (if p.isPrefixOf nc.1 = true then setInsert cs nc.1 else cs) p := by
      simp [seedCommands]
    rw [hstep, ih]
    by_cases h : p.isPrefixOf nc.1 = true
    · rw [if_pos h, setInsert_mem]
      constructor
      · rintro ((hx | rfl) | ⟨nc', hmem, hc⟩)
        · exact Or.inl hx
        · exact Or.inr ⟨nc, by simp, h, rfl⟩
        · exact Or.inr ⟨nc', by simp [hmem], hc⟩
      · rintro (hx | ⟨nc', hmem, hc⟩)
        · exact Or.inl (Or.inl hx)
        · rcases List.mem_cons.1 hmem with rfl | hmem'
          · exact Or.inl (Or.inr hc.2)
          · exact Or.inr ⟨nc', hmem', hc⟩
    · rw [if_neg h]
      constructor
      · rintro (hx | ⟨nc', hmem, hc⟩)
        · exact Or.inl hx
        · exact Or.inr ⟨nc', by simp [hmem], hc⟩
      · rintro (hx | ⟨nc', hmem, hc⟩)
        · exact Or.inl hx
        · rcases List.mem_cons.1 hmem with rfl | hmem'
          · exact absurd hc.1 h
          · exact Or.inr ⟨nc', hmem', hc⟩

/-- Counterexample to C5 as stated: with completion mode active and the
command-name token being the completion target (`bui<MARKER>` against
the registry `{build}`), the handler seeds the channel with `build` but
then still looks the marked text up and raises a `UsageError` — the
claim says it never raises an error in completion mode and resolves only
outside completion mode. -/
theorem C5_completion_mode_counterexample :
    multiCommandHandler [("build".data, 0)] ⟨none, some []⟩ ("bui".data ++ completionMarker) =
      .usageError (.notARecognisedCommand ("bui".data ++ completionMarker))
        ⟨none, some ["build".data]⟩ := by
  decide

/-- C5 amended: the command-name handler asserts on re-entry (the
selection transition is reachable at most once); when the supplied name
bears the completion marker it seeds the channel with exactly the
registered command names having the un-marked prefix; in every case —
completion mode active or not, name marked or not — it then resolves
the supplied (possibly still marker-bearing) text, raising `UsageError`
for an unrecognised name (with no selection recorded) and otherwise
recording the selected `(name, instance)` pair. -/
theorem C5_command_selection_amended :
    (∀ (commands : List (Token × Nat)) (st : MCState) (s0 : Token) (c : Token × Nat),
      st.command = some c → multiCommandHandler commands st s0 = .assertionFailure) ∧
    (∀ (commands : List (Token × Nat)) (cs : List Token) (p x : Token),
      x ∈ seedCommands commands cs p ↔
        x ∈ cs ∨ ∃ nc ∈ commands, p.isPrefixOf nc.1 = true ∧ x = nc.1) ∧
    (∀ (commands : List (Token × Nat)) (cs : List Token) (p s0 : Token),
      needsCompletionAux completionMarker s0 = some p →
      lookupAssoc commands s0 = none →
      multiCommandHandler commands ⟨none, some cs⟩ s0 =
        .usageError (.notARecognisedCommand s0) ⟨none, some (seedCommands commands cs p)⟩) ∧
    (∀ (commands : List (Token × Nat)) (st : MCState) (s0 : Token),
      st.command = none → lookupAssoc commands s0 = none →
      ∃ st1, multiCommandHandler commands st s0 =
          .usageError (.notARecognisedCommand s0) st1 ∧ st1.command = none) ∧
    (∀ (commands : List (Token × Nat)) (st : MCState) (s0 : Token) (inst : Nat),
      st.command = none → lookupAssoc commands s0 = some inst →
      ∃ comps, multiCommandHandler commands st s0 = .ok ⟨some (s0, inst), comps⟩) := by
  refine ⟨?_, ?_, ?_, ?_, ?_⟩
  · intro commands st s0 c hc
    simp [multiCommandHandler, hc]
  · exact fun commands cs p x => seedCommands_mem p commands cs x
  · intro commands cs p s0 hm hl
    simp [multiCommandHandler, hm, hl]
  · intro commands st s0 hc0 hl
    obtain ⟨cmd, comps⟩ := st
    simp only [MCState.mk.injEq] at hc0
    subst hc0
    cases comps with
    | none => exact ⟨⟨none, none⟩, by simp [multiCommandHandler, hl], rfl⟩
    | some cs =>
      cases hma : needsCompletionAux completionMarker s0 with
      | none => exact ⟨⟨none, some cs⟩, by simp [multiCommandHandler, hma, hl], rfl⟩
      | some p =>
        exact ⟨⟨none, some (seedCommands commands cs p)⟩,
          by simp [multiCommandHandler, hma, hl], rfl⟩
  · intro commands st s0 inst hc0 hl
    obtain ⟨cmd, comps⟩ := st
    simp only [MCState.mk.injEq] at hc0
    subst hc0
    cases comps with
    | none => exact ⟨none, by simp [multiCommandHandler, hl]⟩
    | some cs =>
      cases hma : needsCompletionAux completionMarker s0 with
      | none => exact ⟨some cs, by simp [multiCommandHandler, hma, hl]⟩
      | some p =>
        exact ⟨some (seedCommands commands cs p), by simp [multiCommandHandler, hma, hl]⟩

/-- Witness for C5 (amended): re-entry with a selected command asserts;
`bu` completes to `build`; the marked name raises the usage error with
the seeded channel; the unmarked unrecognised name `fetch` outside
completion mode also raises the usage error with no selection; and the
unmarked name `run` is resolved and recorded once. -/
theorem C5_command_selection_amended_witness :
    multiCommandHandler [("build".data, 0)] ⟨some ("build".data, 0), none⟩ "run".data =
      .assertionFailure ∧
    ("build".data ∈ seedCommands [("build".data, 0)] [] "bu".data ↔
      "build".data ∈ ([] : List Token) ∨
        ∃ nc ∈ [("build".data, 0)], ("bu".data).isPrefixOf nc.1 = true ∧ "build".data = nc.1) ∧
    multiCommandHandler [("build".data, 0)] ⟨none, some []⟩ ("bu".data ++ completionMarker) =
      .usageError (.notARecognisedCommand ("bu".data ++ completionMarker))
        ⟨none, some (seedCommands [("build".data, 0)] [] "bu".data)⟩ ∧
    (∃ st1, multiCommandHandler [("build".data, 0)] ⟨none, none⟩ "fetch".data =
      .usageError (.notARecognisedCommand "fetch".data) st1 ∧ st1.command = none) ∧
    (∃ comps, multiCommandHandler [("run".data, 5)] ⟨none, none⟩ "run".data =
      .ok ⟨some ("run".data, 5), comps⟩) :=
  ⟨C5_command_selection_amended.1 [("build".data, 0)] ⟨some ("build".data, 0), none⟩
      "run".data ("build".data, 0) rfl,
   C5_command_selection_amended.2.1 [("build".data, 0)] [] "bu".data "build".data,
   C5_command_selection_amended.2.2.1 [("build".data, 0)] [] "bu".data
      ("bu".data ++ completionMarker) (by decide) (by decide),
   C5_command_selection_amended.2.2.2.1 [("build".data, 0)] ⟨none, none⟩ "fetch".data
      rfl (by decide),
   C5_command_selection_amended.2.2.2.2 [("run".data, 5)] ⟨none, none⟩ "run".data 5 rfl rfl⟩

end Nix

namespace Nix

theorem processArgs_satisfied_nil (exp : ExpectedArg)
    (args : List Token) (fin : Bool) (ch : Chan)
    (hs : ((exp.arity == 0 && fin) || (decide (exp.arity > 0) && args.length == exp.arity)) = true) :
    processArgs [exp] args fin ch =
      .ok (true, [], ⟨ch.completions, ch.events ++ [.argHandlerCalled exp.label args]⟩) := by
  obtain ⟨comps, evs⟩ := ch
  simp only [processArgs, hs, if_true]

theorem processArgs_satisfied_cons (exp e2 : ExpectedArg) (rest2 : List ExpectedArg)
    (args : List Token) (fin : Bool) (ch : Chan)
    (hs : ((exp.arity == 0 && fin) || (decide (exp.arity > 0) && args.length == exp.arity)) = true) :
    processArgs (exp :: e2 :: rest2) args fin ch =
      if fin && !e2.optional then
        .error (.moreArgumentsRequired,
          ⟨ch.completions, ch.events ++ [.argHandlerCalled exp.label args]⟩)
      else .ok (true, e2 :: rest2,
        ⟨ch.completions, ch.events ++ [.argHandlerCalled exp.label args]⟩) := by
  obtain ⟨comps, evs⟩ := ch
  simp only [processArgs, hs, if_true]

theorem processArgs_unsatisfied (exp : ExpectedArg) (qrest : List ExpectedArg)
    (args : List Token) (fin : Bool) (ch : Chan)
    (hs : ((exp.arity == 0 && fin) || (decide (exp.arity > 0) && args.length == exp.arity)) = false) :
    processArgs (exp :: qrest) args fin ch =
      if fin && !exp.optional then .error (.moreArgumentsRequired, ch)
      else .ok (false, exp :: qrest, ch) := by
  simp only [processArgs, hs, Bool.false_eq_true, if_false]

theorem processArgs_events (q : List ExpectedArg) (args : List Token) (fin : Bool)
    (ch : Chan) (r : Bool) (q' : List ExpectedArg) (ch' : Chan)
    (h : processArgs q args fin ch = .ok (r, q', ch')) :
    ∀ e ∈ ch'.events, e ∈ ch.events ∨ ∃ lb vs, e = Event.argHandlerCalled lb vs := by
  cases q with
  | nil =>
    cases args with
    | cons a as => exact absurd h (by simp [processArgs])
    | nil =>
      simp only [processArgs, Except.ok.injEq, Prod.mk.injEq] at h
      obtain ⟨-, -, rfl⟩ := h
      exact fun e he => Or.inl he
  | cons exp qrest =>
    by_cases hs : ((exp.arity == 0 && fin) || (decide (exp.arity > 0) && args.length == exp.arity)) = true
    · cases qrest with
      | nil =>
        rw [processArgs_satisfied_nil exp args fin ch hs] at h
        simp only [Except.ok.injEq, Prod.mk.injEq] at h
        obtain ⟨-, -, rfl⟩ := h
        intro e he
        rcases List.mem_append.1 he with h1 | h2
        · exact Or.inl h1
        · simp only [List.mem_singleton] at h2
          exact Or.inr ⟨exp.label, args, h2⟩
      | cons e2 rest2 =>
        rw [processArgs_satisfied_cons exp e2 rest2 args fin ch hs] at h
        by_cases hopt : (fin && !e2.optional) = true
        · rw [if_pos hopt] at h
          exact absurd h (by simp)
        · rw [if_neg hopt] at h
          simp only [Except.ok.injEq, Prod.mk.injEq] at h
          obtain ⟨-, -, rfl⟩ := h
          intro e he
          rcases List.mem_append.1 he with h1 | h2
          · exact Or.inl h1
          · simp only [List.mem_singleton] at h2
            exact Or.inr ⟨exp.label, args, h2⟩
    · rw [processArgs_unsatisfied exp qrest args fin ch (by simpa using hs)] at h
      by_cases hopt : (fin && !exp.optional) = true
      · rw [if_pos hopt] at h
        exact absurd h (by simp)
      · rw [if_neg hopt] at h
        simp only [Except.ok.injEq, Prod.mk.injEq] at h
        obtain ⟨-, -, rfl⟩ := h
        exact fun e he => Or.inl he

theorem positionalLoop_events :
    ∀ (fuel : Nat) (toks : List Token) (st r : LS),
      positionalLoop fuel toks st = some (.ok r) →
      ∀ e ∈ r.chan.events, e ∈ st.chan.events ∨ ∃ lb vs, e = Event.argHandlerCalled lb vs := by
  intro fuel
  induction fuel with
  | zero => intro toks st r h; exact absurd h (by simp [positionalLoop])
  | succ fuel ih =>
    intro toks st r h
    cases toks with
    | nil =>
      rw [positionalLoop] at h
      cases hpa : processArgs st.q st.pending true st.chan with
      | error e => rw [hpa] at h; exact absurd h (by simp)
      | ok res =>
        obtain ⟨r0, q', ch'⟩ := res
        rw [hpa] at h
        simp only [Option.some.injEq, Except.ok.injEq] at h
        subst h
        exact processArgs_events st.q st.pending true st.chan r0 q' ch' hpa
    | cons t rest =>
      rw [positionalLoop] at h
      cases hpa : processArgs st.q (st.pending ++ [t]) false st.chan with
      | error e => rw [hpa] at h; exact absurd h (by simp)
      | ok res =>
        obtain ⟨r0, q', ch'⟩ := res
        rw [hpa] at h
        intro e he
        rcases ih rest _ r h e he with h1 | h2
        · exact processArgs_events st.q (st.pending ++ [t]) false st.chan r0 q' ch' hpa e h1
        · exact Or.inr h2

end Nix

namespace Nix

/-- C6: the first literal `--` token is dropped from the stream without
touching any state (no handler sees it) and switches the loop into
positional-only mode; in that mode the loop is exactly the
positional-only loop, which never expands a token nor dispatches any
token as a flag, and only ever adds positional-handler events to the
trace. -/
theorem C6_dashdash_disables_flags :
    (∀ (reg : Reg) (fuel : Nat) (rest : List Token) (st : LS),
      parseLoop reg (fuel + 1) false ((['-', '-'] : Token) :: rest) st =
        parseLoop reg fuel true rest st) ∧
    (∀ (reg : Reg) (fuel : Nat) (toks : List Token) (st : LS),
      parseLoop reg fuel true toks st = positionalLoop fuel toks st) ∧
    (∀ (fuel : Nat) (toks : List Token) (st r : LS),
      positionalLoop fuel toks st = some (.ok r) →
      ∀ e ∈ r.chan.events, e ∈ st.chan.events ∨ ∃ lb vs, e = Event.argHandlerCalled lb vs) := by
  refine ⟨?_, ?_, positionalLoop_events⟩
  · intro reg fuel rest st
    have hq : expandQualifies ['-', '-'] = false := by decide
    simp [parseLoop, hq]
  · intro reg fuel
    induction fuel with
    | zero => intro toks st; rfl
    | succ fuel ih =>
      intro toks st
      cases toks with
      | nil => rfl
      | cons t rest =>
        have hred1 : parseLoop reg (fuel + 1) true (t :: rest) st =
            match processArgs st.q (st.pending ++ [t]) false st.chan with
            | .error e => some (.error e)
            | .ok (r, q', ch') =>
              parseLoop reg fuel true rest ⟨q', if r then [] else st.pending ++ [t], ch'⟩ := rfl
        have hred2 : positionalLoop (fuel + 1) (t :: rest) st =
            match processArgs st.q (st.pending ++ [t]) false st.chan with
            | .error e => some (.error e)
            | .ok (r, q', ch') =>
              positionalLoop fuel rest ⟨q', if r then [] else st.pending ++ [t], ch'⟩ := rfl
        rw [hred1, hred2]
        cases hpa : processArgs st.q (st.pending ++ [t]) false st.chan with
        | error e => rfl
        | ok res =>
          obtain ⟨r0, q', ch'⟩ := res
          exact ih rest _

/-- Witness for C6: on the stream `-- -x`, the separator is dropped and
`-x` (shaped like a flag) is accumulated as a positional token; the
positional-only loop run adds only positional-handler events. -/
theorem C6_dashdash_disables_flags_witness :
    parseLoop ⟨[], [], []⟩ 3 false ((['-', '-'] : Token) :: ["-x".data]) ⟨[], [], ⟨none, []⟩⟩ =
      parseLoop ⟨[], [], []⟩ 2 true ["-x".data] ⟨[], [], ⟨none, []⟩⟩ ∧
    parseLoop ⟨[], [], []⟩ 2 true ["-x".data]
        ⟨[⟨"arg".data, 1, false⟩], [], ⟨none, []⟩⟩ =
      positionalLoop 2 ["-x".data] ⟨[⟨"arg".data, 1, false⟩], [], ⟨none, []⟩⟩ ∧
    (∀ e ∈ (⟨[], [], ⟨none, [Event.argHandlerCalled "arg".data ["-x".data]]⟩⟩ : LS).chan.events,
      e ∈ (⟨[⟨"arg".data, 1, false⟩], [], ⟨none, []⟩⟩ : LS).chan.events ∨
        ∃ lb vs, e = Event.argHandlerCalled lb vs) :=
  ⟨C6_dashdash_disables_flags.1 ⟨[], [], []⟩ 2 ["-x".data] ⟨[], [], ⟨none, []⟩⟩,
   C6_dashdash_disables_flags.2.1 ⟨[], [], []⟩ 2 ["-x".data]
      ⟨[⟨"arg".data, 1, false⟩], [], ⟨none, []⟩⟩,
   C6_dashdash_disables_flags.2.2 2 ["-x".data] ⟨[⟨"arg".data, 1, false⟩], [], ⟨none, []⟩⟩
      ⟨[], [], ⟨none, [Event.argHandlerCalled "arg".data ["-x".data]]⟩⟩ (by decide)⟩

/-- Counterexample to C7 as stated: a non-optional consume-all
(`arity 0`) front entry is still in the queue when the finish signal
arrives with an empty accumulator, yet no `UsageError` is raised — the
entry is satisfied at finish, its handler runs on the empty list and it
is popped before the error check; the claim predicts the error
unconditionally for a non-optional front.  Shown both at the
`processArgs` level and for a whole `parseCmdline` run on an empty
command line. -/
theorem C7_finish_counterexample :
    processArgs [⟨"paths".data, 0, false⟩] [] true ⟨none, []⟩ =
      .ok (true, [], ⟨none, [.argHandlerCalled "paths".data []]⟩) ∧
    parseCmdline ⟨[], [], []⟩ [⟨"paths".data, 0, false⟩] none [] 1 =
      some (.ok ⟨[], [], ⟨none, [.argHandlerCalled "paths".data []]⟩⟩) :=
  ⟨by decide, by decide⟩

/-- C7 amended: at finish the front entry is first given the chance to
be satisfied (a consume-all front is satisfied at finish; a fixed-arity
front when the accumulator holds exactly that many tokens), in which
case its handler is invoked on the accumulator and it is popped; the
`more arguments are required` error is then raised exactly when the
remaining queue is non-empty with a non-optional front; an unsatisfied
optional front raises no error, its handler is not invoked, and it
remains in the queue. -/
theorem C7_finish_behaviour :
    (∀ (exp : ExpectedArg) (args : List Token) (ch : Chan),
      ((exp.arity == 0 && true) || (decide (exp.arity > 0) && args.length == exp.arity)) = true →
      processArgs [exp] args true ch =
        .ok (true, [], ⟨ch.completions, ch.events ++ [.argHandlerCalled exp.label args]⟩)) ∧
    (∀ (exp e2 : ExpectedArg) (rest2 : List ExpectedArg) (args : List Token) (ch : Chan),
      ((exp.arity == 0 && true) || (decide (exp.arity > 0) && args.length == exp.arity)) = true →
      processArgs (exp :: e2 :: rest2) args true ch =
        if e2.optional then
          .ok (true, e2 :: rest2,
            ⟨ch.completions, ch.events ++ [.argHandlerCalled exp.label args]⟩)
        else .error (.moreArgumentsRequired,
          ⟨ch.completions, ch.events ++ [.argHandlerCalled exp.label args]⟩)) ∧
    (∀ (exp : ExpectedArg) (qrest : List ExpectedArg) (args : List Token) (ch : Chan),
      ((exp.arity == 0 && true) || (decide (exp.arity > 0) && args.length == exp.arity)) = false →
      processArgs (exp :: qrest) args true ch =
        if exp.optional then .ok (false, exp :: qrest, ch)
        else .error (.moreArgumentsRequired, ch)) := by
  refine ⟨?_, ?_, ?_⟩
  · intro exp args ch hs
    exact processArgs_satisfied_nil exp args true ch hs
  · intro exp e2 rest2 args ch hs
    rw [processArgs_satisfied_cons exp e2 rest2 args true ch hs]
    by_cases hopt : e2.optional = true
    · rw [if_neg (by simp [hopt]), if_pos hopt]
    · have hf : e2.optional = false := by simpa using hopt
      rw [if_pos (by simp [hf]), if_neg (by simp [hf])]
  · intro exp qrest args ch hs
    rw [processArgs_unsatisfied exp qrest args true ch hs]
    by_cases hopt : exp.optional = true
    · rw [if_neg (by simp [hopt]), if_pos hopt]
    · have hf : exp.optional = false := by simpa using hopt
      rw [if_pos (by simp [hf]), if_neg (by simp [hf])]

/-- Witness for C7 (amended): a satisfied non-optional consume-all front
alone in the queue is consumed without error; a satisfied front followed
by a non-optional entry raises the error after the handler runs; an
unsatisfied optional front is left unconsumed without error; an
unsatisfied non-optional front raises the error. -/
theorem C7_finish_behaviour_witness :
    processArgs [⟨"paths".data, 0, false⟩] ["a".data] true ⟨none, []⟩ =
      .ok (true, [], ⟨(⟨none, []⟩ : Chan).completions,
        (⟨none, []⟩ : Chan).events ++ [.argHandlerCalled "paths".data ["a".data]]⟩) ∧
    processArgs [⟨"one".data, 1, false⟩, ⟨"two".data, 1, false⟩] ["a".data] true ⟨none, []⟩ =
      (if (⟨"two".data, 1, false⟩ : ExpectedArg).optional then
        .ok (true, [⟨"two".data, 1, false⟩], ⟨(⟨none, []⟩ : Chan).completions,
          (⟨none, []⟩ : Chan).events ++ [.argHandlerCalled "one".data ["a".data]]⟩)
      else .error (.moreArgumentsRequired, ⟨(⟨none, []⟩ : Chan).completions,
        (⟨none, []⟩ : Chan).events ++ [.argHandlerCalled "one".data ["a".data]]⟩)) ∧
    processArgs [⟨"cmd".data, 1, true⟩] [] true ⟨none, []⟩ =
      (if (⟨"cmd".data, 1, true⟩ : ExpectedArg).optional
       then .ok (false, [⟨"cmd".data, 1, true⟩], ⟨none, []⟩)
       else .error (.moreArgumentsRequired, ⟨none, []⟩)) ∧
    processArgs [⟨"src".data, 1, false⟩] [] true ⟨none, []⟩ =
      (if (⟨"src".data, 1, false⟩ : ExpectedArg).optional
       then .ok (false, [⟨"src".data, 1, false⟩], ⟨none, []⟩)
       else .error (.moreArgumentsRequired, ⟨none, []⟩)) :=
  ⟨C7_finish_behaviour.1 ⟨"paths".data, 0, false⟩ ["a".data] ⟨none, []⟩ (by decide),
   C7_finish_behaviour.2.1 ⟨"one".data, 1, false⟩ ⟨"two".data, 1, false⟩ [] ["a".data]
      ⟨none, []⟩ (by decide),
   C7_finish_behaviour.2.2 ⟨"cmd".data, 1, true⟩ [] [] ⟨none, []⟩ (by decide),
   C7_finish_behaviour.2.2 ⟨"src".data, 1, false⟩ [] [] ⟨none, []⟩ (by decide)⟩

end Nix

namespace Nix

theorem markToken_length : ∀ (l : List Token) (n : Nat),
    (markToken l n).length = l.length := by
  intro l
  induction l with
  | nil => intro n; rfl
  | cons t ts ih =>
    intro n
    cases n with
    | zero => simp [markToken]
    | succ k => simp [markToken, ih k]

theorem markToken_getD : ∀ (l : List Token) (n i : Nat), i < l.length →
    (markToken l n).getD i [] =
      if i = n then l.getD i [] ++ completionMarker else l.getD i [] := by
  intro l
  induction l with
  | nil => intro n i h; simp at h
  | cons t ts ih =>
    intro n i h
    cases n with
    | zero =>
      cases i with
      | zero => simp [markToken]
      | succ j => simp [markToken]
    | succ k =>
      cases i with
      | zero => simp [markToken]
      | succ j =>
        have hj : j < ts.length := by simpa using h
        simp only [markToken, List.getD_cons_succ]
        rw [ih k j hj]
        by_cases hjk : j = k
        · rw [if_pos hjk, if_pos (by rw [hjk])]
        · rw [if_neg hjk, if_neg (by simpa using hjk)]

/-- C10: with the completion environment signal carrying the 1-based
index `n`, `parseCmdline` checks `n > 0 && n <= cmdline.size()` before
processing any token; an out-of-range index yields the assertion
failure (a distinct outcome from any `UsageError`), and an in-range
index appends the marker to exactly the existing token `n - 1` (the
list keeps its length, every other token is unchanged) before the scan
loop runs on the marked list with the channel active. -/
theorem C10_completion_index_assertion :
    (∀ (reg : Reg) (q0 : List ExpectedArg) (n : Nat) (cmdline : List Token) (fuel : Nat),
      ¬(0 < n ∧ n ≤ cmdline.length) →
      parseCmdline reg q0 (some n) cmdline fuel = some (.error .assertionFailure)) ∧
    (∀ (e : UsageError) (ch : Chan), Fatal.assertionFailure ≠ Fatal.usage e ch) ∧
    (∀ (reg : Reg) (q0 : List ExpectedArg) (n : Nat) (cmdline : List Token) (fuel : Nat),
      0 < n → n ≤ cmdline.length →
      parseCmdline reg q0 (some n) cmdline fuel =
        match parseLoop reg fuel false (markToken cmdline (n - 1)) ⟨q0, [], ⟨some [], []⟩⟩ with
        | none => none
        | some (.error (e, ch)) => some (.error (.usage e ch))
        | some (.ok st) => some (.ok st)) ∧
    (∀ (cmdline : List Token) (n : Nat), (markToken cmdline n).length = cmdline.length) ∧
    (∀ (cmdline : List Token) (n i : Nat), i < cmdline.length →
      (markToken cmdline n).getD i [] =
        if i = n then cmdline.getD i [] ++ completionMarker else cmdline.getD i []) := by
  refine ⟨?_, ?_, ?_, markToken_length, markToken_getD⟩
  · intro reg q0 n cmdline fuel h
    simp only [parseCmdline, if_neg h]
  · intro e ch h
    exact Fatal.noConfusion h
  · intro reg q0 n cmdline fuel h1 h2
    simp only [parseCmdline]
    rw [if_pos (show 0 < n ∧ n ≤ cmdline.length from ⟨h1, h2⟩)]

/-- Witness for C10: index 5 on a one-token command line fails the
assertion (and is not a usage error); index 1 is in range, the scan runs
on the marked list, which has the same length and carries the marker
exactly on token 0. -/
theorem C10_completion_index_assertion_witness :
    parseCmdline ⟨[], [], []⟩ [] (some 5) ["a".data] 2 =
      some (.error .assertionFailure) ∧
    Fatal.assertionFailure ≠ Fatal.usage (.unrecognisedFlag "a".data) ⟨none, []⟩ ∧
    parseCmdline ⟨[], [], []⟩ [] (some 1) ["a".data, "b".data] 3 =
      (match parseLoop ⟨[], [], []⟩ 3 false (markToken ["a".data, "b".data] 0)
          ⟨[], [], ⟨some [], []⟩⟩ with
       | none => none
       | some (.error (e, ch)) => some (.error (.usage e ch))
       | some (.ok st) => some (.ok st)) ∧
    (markToken ["a".data, "b".data] 0).length = (["a".data, "b".data] : List Token).length ∧
    (markToken ["a".data, "b".data] 0).getD 0 [] =
      (if 0 = 0 then (["a".data, "b".data] : List Token).getD 0 [] ++ completionMarker
       else (["a".data, "b".data] : List Token).getD 0 []) :=
  ⟨C10_completion_index_assertion.1 ⟨[], [], []⟩ [] 5 ["a".data] 2 (by decide),
   C10_completion_index_assertion.2.1 (.unrecognisedFlag "a".data) ⟨none, []⟩,
   C10_completion_index_assertion.2.2.1 ⟨[], [], []⟩ [] 1 ["a".data, "b".data] 3
      (by decide) (by decide),
   C10_completion_index_assertion.2.2.2.1 ["a".data, "b".data] 0,
   C10_completion_index_assertion.2.2.2.2 ["a".data, "b".data] 0 0 (by decide)⟩

end Nix
